import Mathlib

/-!
Shallow embedding of the News_Sentiment_Analysis backend core
(`backend/news/utils.py` and `backend/news/api.py`) and proofs of the
specification's claims about it.

Python strings are modelled as Lean `String`, Python dict lookups with
defaults as `Option.getD`, and the external NLP / translation / speech
capabilities as opaque function parameters returning `Option`.
-/

namespace NewsSentiment

/-! ### Python string primitives used by the code -/

/-- Python `str.lower()` (per-character lowering). -/
def pyLower (s : String) : String := String.mk (s.data.map Char.toLower)

/-- Helper for `pyTitle`: the Boolean records whether the previous
character was alphabetic (cased). -/
def pyTitleAux : List Char → Bool → List Char
  | [], _ => []
  | c :: cs, prev =>
      (if c.isAlpha then (if prev then c.toLower else c.toUpper) else c) ::
        pyTitleAux cs c.isAlpha

/-- Python `str.title()`: a letter following a non-letter is upper-cased,
every other letter is lower-cased. -/
def pyTitle (s : String) : String := String.mk (pyTitleAux s.data false)

/-- Helper for `pySplit`: splits a character list on whitespace runs,
accumulating the current (reversed) word in `acc`. -/
def splitWAux : List Char → List Char → List (List Char)
  | [], acc => if acc.isEmpty then [] else [acc.reverse]
  | c :: cs, acc =>
      if c.isWhitespace then
        if acc.isEmpty then splitWAux cs [] else acc.reverse :: splitWAux cs []
      else splitWAux cs (c :: acc)

/-- Python `str.split()` with no argument: split on whitespace runs,
producing no empty tokens. -/
def pySplit (s : String) : List String := (splitWAux s.data []).map String.mk

/-- Python `str.strip()` on a character list: drop leading and trailing
whitespace. -/
def stripChars (l : List Char) : List Char :=
  ((l.dropWhile Char.isWhitespace).reverse.dropWhile Char.isWhitespace).reverse

/-- Python `str.strip()`. -/
def pyStrip (s : String) : String := String.mk (stripChars s.data)

/-! ### Data model: articles and counts -/

/-- An article record as consumed by `analyze_articles`: the code reads
`article.get('title', '')` and `article.get('sentiment', 'Neutral')`,
so both fields may be absent. -/
structure Article where
  title : Option String
  sentiment : Option String
deriving DecidableEq, Repr

/-- `article.get('sentiment', 'Neutral')`. -/
def sentimentOf (a : Article) : String := a.sentiment.getD "Neutral"

/-- `article.get('title', '')`. -/
def titleOf (a : Article) : String := a.title.getD ""

/-- The three-key sentiment tally `{"Positive": _, "Negative": _, "Neutral": _}`. -/
structure Counts where
  positive : Nat
  negative : Nat
  neutral : Nat
deriving DecidableEq, Repr

/-- One step of the tally loop: a recognised label increments its own key,
any other label increments `Neutral`. -/
def bump (c : Counts) (s : String) : Counts :=
  if s = "Positive" then { c with positive := c.positive + 1 }
  else if s = "Negative" then { c with negative := c.negative + 1 }
  else { c with neutral := c.neutral + 1 }

/-- The sentiment tally over the article list. -/
def sentCounts : List Article → Counts
  | [] => ⟨0, 0, 0⟩
  | a :: rest => bump (sentCounts rest) (sentimentOf a)

/-- Titles of articles whose sentiment is `"Positive"`, in input order
(the `pos_titles` accumulator). -/
def posTitlesOf : List Article → List String
  | [] => []
  | a :: rest =>
      if sentimentOf a = "Positive" then titleOf a :: posTitlesOf rest
      else posTitlesOf rest

/-- Titles of articles whose sentiment is `"Negative"`, in input order
(the `neg_titles` accumulator). -/
def negTitlesOf : List Article → List String
  | [] => []
  | a :: rest =>
      if sentimentOf a = "Negative" then titleOf a :: negTitlesOf rest
      else negTitlesOf rest

/-! ### Topic extraction -/

/-- `[word.strip().lower() for word in title.split()[:3] if word.strip()]`. -/
def topicsOfTitle (t : String) : List String :=
  ((pySplit t).take 3).filterMap fun w =>
    if pyStrip w = "" then none else some (pyLower (pyStrip w))

/-- The `all_topics` accumulator: topics of each title, in article order. -/
def allTopics : List Article → List String
  | [] => []
  | a :: rest => topicsOfTitle (titleOf a) ++ allTopics rest

/-- `topic_counter[topic] = topic_counter.get(topic, 0) + 1` on an
insertion-ordered association list: an existing key is incremented in
place, a new key is appended at the end. -/
def incKey : List (String × Nat) → String → List (String × Nat)
  | [], t => [(t, 1)]
  | (k, n) :: rest, t =>
      if k = t then (k, n + 1) :: rest else (k, n) :: incKey rest t

/-- The `topic_counter` dict as an insertion-ordered association list. -/
def countList (l : List String) : List (String × Nat) := l.foldl incKey []

/-- Stable insertion for descending-by-count order: the new element is
placed before the first element whose count is not larger, so elements
with equal counts keep their original relative order. -/
def insertDesc (x : String × Nat) : List (String × Nat) → List (String × Nat)
  | [] => [x]
  | y :: ys => if x.2 < y.2 then y :: insertDesc x ys else x :: y :: ys

/-- `sorted(topic_counter.items(), key=lambda x: x[1], reverse=True)`:
a stable sort by descending count. -/
def sortDesc : List (String × Nat) → List (String × Nat)
  | [] => []
  | x :: xs => insertDesc x (sortDesc xs)

/-- `common_topics`: top 3 counted topics, title-cased. -/
def commonTopicsOf (arts : List Article) : List String :=
  ((sortDesc (countList (allTopics arts))).take 3).map fun p => pyTitle p.1

/-! ### Coverage differences and final verdict -/

/-- The `coverage_differences` list. -/
def coverageOf (arts : List Article) : List String :=
  let c := sentCounts arts
  let posT := posTitlesOf arts
  let negT := negTitlesOf arts
  [toString c.positive ++ " articles highlight positive developments",
   toString c.negative ++ " articles discuss challenges/risks"]
  ++ (if posT.isEmpty then []
      else ["Positive articles include: " ++ String.intercalate ", " (posT.take 2)])
  ++ (if negT.isEmpty then []
      else ["Negative articles include: " ++ String.intercalate ", " (negT.take 2)])

def posSentence : String := "News coverage is mostly positive."

def negSentence : String := "News coverage is mostly negative."

def balancedSentence : String := "Overall news coverage appears balanced."

/-- The final verdict comparison. -/
def finalSentimentOf (c : Counts) : String :=
  if c.positive > c.negative then posSentence
  else if c.negative > c.positive then negSentence
  else balancedSentence

/-- The aggregate report returned by `analyze_articles` on success. -/
structure Report where
  sentiment_distribution : Counts
  common_topics : List String
  coverage_differences : List String
  final_sentiment_analysis : String
deriving DecidableEq, Repr

/-- `analyze_articles`: empty input yields the error dict, otherwise the
aggregate report. -/
def analyze_articles (arts : List Article) : Except String Report :=
  if arts.isEmpty then .error "No articles to analyze"
  else .ok
    { sentiment_distribution := sentCounts arts
      common_topics := commonTopicsOf arts
      coverage_differences := coverageOf arts
      final_sentiment_analysis := finalSentimentOf (sentCounts arts) }

/-! ### Specification-side helpers for the topic ordering claim -/

/-- First occurrences of the elements of a list, in order, skipping those
already in `seen`.  `firstOccsAux [] l` is the list of distinct elements of
`l` in the order they first appear. -/
def firstOccsAux (seen : List String) : List String → List String
  | [] => []
  | t :: ts =>
      if t ∈ seen then firstOccsAux seen ts
      else t :: firstOccsAux (t :: seen) ts

/-- Lookup of a key's count in an association list (0 when absent). -/
def getCount : List (String × Nat) → String → Nat
  | [], _ => 0
  | (k, n) :: rest, t => if k = t then n else getCount rest t

/-! ### `summarize` (utils.py) -/

/-- `summarizer(text, max_length=…, min_length=…)[0]['summary_text']`
under the surrounding `try`: on capability failure the code falls back to
the first 150 characters of the original text plus an ellipsis marker. -/
def applySummarizer (cap : String → Nat → Nat → Option String)
    (text : String) (maxLen minLen : Nat) : String :=
  match cap text maxLen minLen with
  | some s => s
  | none => text.take 150 ++ "..."

/-- `summarize`: text with fewer than 30 whitespace-delimited words is
returned unchanged; otherwise the summarization capability is invoked with
`max_length = min(150, wc - 10)` and `min_length = max(30, wc // 4)`. -/
def summarize (cap : String → Nat → Nat → Option String)
    (text : String) : String :=
  let words := pySplit text
  if words.length < 30 then text
  else
    applySummarizer cap text (min 150 (words.length - 10))
      (max 30 (words.length / 4))

/-- `analyze_sentiment`: empty stripped text or a capability failure maps
to `"Neutral"`; otherwise the raw label is mapped to Positive/Negative. -/
def analyze_sentiment (cap : String → Option String) (text : String) : String :=
  if pyStrip text = "" then "Neutral"
  else
    match cap (text.take 512) with
    | some label => if label = "POSITIVE" then "Positive" else "Negative"
    | none => "Neutral"

/-! ### `generate_tts` (utils.py) -/

/-- The `sentiment_distribution` dict as read by `generate_tts`: each of
the three keys may be absent (`.get(key, 0)` supplies 0). -/
structure DistMap where
  positive : Option Nat
  negative : Option Nat
  neutral : Option Nat
deriving DecidableEq, Repr

/-- The analysis dict as read by `generate_tts`: every field may be
absent; `extraKeys` counts keys irrelevant to `generate_tts`, which still
make the dict truthy. -/
structure AnalysisData where
  final_sentiment_analysis : Option String
  sentiment_distribution : Option DistMap
  common_topics : Option (List String)
  coverage_differences : Option (List String)
  extraKeys : Nat
deriving DecidableEq, Repr

/-- Python truthiness of the analysis dict: a dict is truthy iff it has at
least one key. -/
def truthyDict (d : AnalysisData) : Bool :=
  d.final_sentiment_analysis.isSome || d.sentiment_distribution.isSome ||
    d.common_topics.isSome || d.coverage_differences.isSome ||
    decide (0 < d.extraKeys)

/-- The `analysis_data` argument of `generate_tts`: Python `None`, a
truthy non-dict value, a falsy non-dict value, or a dict. -/
inductive Payload where
  | null : Payload
  | truthyNonDict : Payload
  | falsyNonDict : Payload
  | dict : AnalysisData → Payload
deriving DecidableEq, Repr

/-- The guard `not analysis_data or not isinstance(analysis_data, dict)`. -/
def invalidPayload : Payload → Bool
  | .null => true
  | .truthyNonDict => true
  | .falsyNonDict => true
  | .dict d => !truthyDict d

/-- `for i, insight in enumerate(coverage_diff, start=1)` producing
`f"{i}. {insight}"` for each item. -/
def numberFrom (i : Nat) : List String → List String
  | [] => []
  | x :: xs => (toString i ++ ". " ++ x) :: numberFrom (i + 1) xs

/-- The script (`summary_text`) built by `generate_tts`. -/
def buildSummaryText (company : String) (d : AnalysisData) : String :=
  let sentiment_summary :=
    d.final_sentiment_analysis.getD "No sentiment analysis available"
  let sd := d.sentiment_distribution.getD ⟨none, none, none⟩
  let topics := d.common_topics.getD []
  let cov := d.coverage_differences.getD []
  let base :=
    "Company: " ++ company ++ ". Overall Sentiment: " ++ sentiment_summary ++
      ". Positive articles: " ++ toString (sd.positive.getD 0) ++
      ", Negative articles: " ++ toString (sd.negative.getD 0) ++
      ", Neutral articles: " ++ toString (sd.neutral.getD 0) ++ ". "
  let withTopics :=
    if topics.isEmpty then base
    else base ++ "Common topics include " ++ String.intercalate ", " topics ++ ". "
  if cov.isEmpty then withTopics
  else
    withTopics ++ "Key insights are: " ++
      String.intercalate " " (numberFrom 1 cov) ++ ". "

/-- `f"{company_name.replace(' ', '_')}_{hash(summary_text)}.mp3"`.  The
value of Python's built-in `hash` on the script is passed explicitly,
since it depends on the per-process hash seed. -/
def ttsFilename (hashVal : Int) (company : String) : String :=
  String.mk (company.data.map fun c => if c = ' ' then '_' else c) ++ "_" ++
    toString hashVal ++ ".mp3"

/-- `generate_tts` with its external effects abstracted: `pyHash` is the
per-process string hash, `translate` the translation capability and
`synthesize` the speech synthesis plus file-existence check (`false` =
failure).  Returns the generated audio filename, or `none` on validation
or capability failure. -/
def generate_tts (pyHash : String → Int) (translate : String → Option String)
    (synthesize : String → Bool) (company : String) (payload : Payload) :
    Option String :=
  if invalidPayload payload then none
  else
    match payload with
    | .dict d =>
        let summary_text := buildSummaryText company d
        match translate summary_text with
        | none => none
        | some translated =>
            let filename := ttsFilename (pyHash summary_text) company
            if synthesize translated then some filename else none
    | _ => none

/-! ### Concurrent enrichment orchestrator (api.py `get_news`) -/

/-- A raw article record assembled by `get_news` before enrichment. -/
structure RawArticle where
  title : String
  summary : String
  link : String
  source : String
deriving DecidableEq, Repr

/-- An article after `process_article` ran on it. -/
structure EnrichedArticle where
  title : String
  summary : String
  link : String
  source : String
  sentiment : String
deriving DecidableEq, Repr

/-- `process_article`: computes the sentiment of the original summary and
replaces the summary by its condensed version; it touches only its own
article. -/
def process_article (sentCap : String → Option String)
    (summCap : String → Nat → Nat → Option String) (a : RawArticle) :
    EnrichedArticle :=
  { title := a.title
    summary := summarize summCap a.summary
    link := a.link
    source := a.source
    sentiment := analyze_sentiment sentCap a.summary }

/-- The result store of `ThreadPoolExecutor.map`: tasks complete in the
arbitrary order `order`; the completion of task `i` writes its result
into slot `i` of the store, regardless of when it runs. -/
def completeStore {α β : Type} (f : α → β) (xs : List α)
    (order : List Nat) : List (Option β) :=
  order.foldl (fun st i => st.set i ((xs[i]?).map f))
    (List.replicate xs.length none)

/-- Reads the result store slot by slot in input-index order; `none` if
some task has not completed. -/
def gather {β : Type} : List (Option β) → Option (List β)
  | [] => some []
  | none :: _ => none
  | some b :: rest => (gather rest).map (b :: ·)

/-- `list(executor.map(process_article, articles))` with the completion
order made explicit: results are collected per input slot and read back
in input order. -/
def poolMap {α β : Type} (f : α → β) (xs : List α) (order : List Nat) :
    Option (List β) :=
  gather (completeStore f xs order)

/-- A concrete article list used by witness statements: one recognised
label and one unrecognised label. -/
def sampleArticles : List Article :=
  [⟨some "Alpha rises", some "Positive"⟩, ⟨some "Beta falls", some "odd"⟩]

/-- A concrete text of exactly 30 whitespace-delimited words. -/
def thirtyWordText : String :=
  "a a a a a a a a a a a a a a a a a a a a a a a a a a a a a a"

/-- A concrete raw article list for the orchestrator witness. -/
def sampleRaw : List RawArticle :=
  [⟨"T1", "s1", "l1", "n1"⟩, ⟨"T2", "s2", "l2", "n2"⟩]

/-! ### Basic lemmas about `analyze_articles` -/

/-- On non-empty input `analyze_articles` returns the report record. -/
theorem analyze_articles_ok (arts : List Article) (h : arts ≠ []) :
    analyze_articles arts = Except.ok
      { sentiment_distribution := sentCounts arts
        common_topics := commonTopicsOf arts
        coverage_differences := coverageOf arts
        final_sentiment_analysis := finalSentimentOf (sentCounts arts) } := by
  cases arts with
  | nil => exact absurd rfl h
  | cons a rest => simp [analyze_articles]

theorem sentCounts_positive (arts : List Article) :
    (sentCounts arts).positive =
      (arts.filter fun a => sentimentOf a == "Positive").length := by
  induction arts with
  | nil => rfl
  | cons a rest ih =>
      by_cases h1 : sentimentOf a = "Positive"
      · simp [sentCounts, bump, h1, ih]
      · by_cases h2 : sentimentOf a = "Negative" <;>
          simp [sentCounts, bump, h1, h2, ih]

theorem sentCounts_negative (arts : List Article) :
    (sentCounts arts).negative =
      (arts.filter fun a => sentimentOf a == "Negative").length := by
  induction arts with
  | nil => rfl
  | cons a rest ih =>
      by_cases h1 : sentimentOf a = "Positive"
      · have h2 : sentimentOf a ≠ "Negative" := by simp [h1]
        simp [sentCounts, bump, h1, h2, ih]
      · by_cases h2 : sentimentOf a = "Negative" <;>
          simp [sentCounts, bump, h1, h2, ih]

theorem sentCounts_neutral (arts : List Article) :
    (sentCounts arts).neutral =
      (arts.filter fun a =>
        !(sentimentOf a == "Positive") && !(sentimentOf a == "Negative")).length := by
  induction arts with
  | nil => rfl
  | cons a rest ih =>
      by_cases h1 : sentimentOf a = "Positive"
      · simp [sentCounts, bump, h1, ih]
      · by_cases h2 : sentimentOf a = "Negative" <;>
          simp [sentCounts, bump, h1, h2, ih]

theorem bump_sum (c : Counts) (s : String) :
    (bump c s).positive + (bump c s).negative + (bump c s).neutral =
      c.positive + c.negative + c.neutral + 1 := by
  unfold bump
  split_ifs <;> simp <;> omega

theorem sentCounts_sum (arts : List Article) :
    (sentCounts arts).positive + (sentCounts arts).negative +
      (sentCounts arts).neutral = arts.length := by
  induction arts with
  | nil => rfl
  | cons a rest ih =>
      simp only [sentCounts, bump_sum, List.length_cons, ih]

/-! ### Claim C1: the final verdict is chosen by strict majority -/

/-- C1: for every non-empty article list, `final_sentiment_analysis` is the
"mostly positive" sentence iff Positive > Negative, the "mostly negative"
sentence iff Negative > Positive, and the balanced sentence iff the counts
are equal. -/
theorem final_verdict_majority (arts : List Article) (h : arts ≠ []) :
    ∃ r, analyze_articles arts = Except.ok r ∧
      (r.final_sentiment_analysis = posSentence ↔
        r.sentiment_distribution.negative < r.sentiment_distribution.positive) ∧
      (r.final_sentiment_analysis = negSentence ↔
        r.sentiment_distribution.positive < r.sentiment_distribution.negative) ∧
      (r.final_sentiment_analysis = balancedSentence ↔
        r.sentiment_distribution.positive = r.sentiment_distribution.negative) := by
  refine ⟨_, analyze_articles_ok arts h, ?_, ?_, ?_⟩ <;>
    · simp only [finalSentimentOf, gt_iff_lt]
      split_ifs with h1 h2 <;>
        simp_all [posSentence, negSentence, balancedSentence] <;> omega

/-- Witness for C1 at a concrete one-article input. -/
theorem final_verdict_majority_witness :
    ∃ r, analyze_articles [⟨some "Alpha rises", some "Positive"⟩] = Except.ok r ∧
      (r.final_sentiment_analysis = posSentence ↔
        r.sentiment_distribution.negative < r.sentiment_distribution.positive) ∧
      (r.final_sentiment_analysis = negSentence ↔
        r.sentiment_distribution.positive < r.sentiment_distribution.negative) ∧
      (r.final_sentiment_analysis = balancedSentence ↔
        r.sentiment_distribution.positive = r.sentiment_distribution.negative) :=
  final_verdict_majority [⟨some "Alpha rises", some "Positive"⟩]
    (List.cons_ne_nil _ _)

/-! ### Claim C2: the sentiment distribution tallies every article -/

/-- C2: the distribution has exactly the three keys (the `Counts` record),
its values are the counts of Positive, Negative and everything-else
articles, and they sum to the number of input articles; an unrecognised
label is counted as Neutral. -/
theorem distribution_partitions (arts : List Article) (h : arts ≠ []) :
    ∃ r, analyze_articles arts = Except.ok r ∧
      r.sentiment_distribution.positive =
        (arts.filter fun a => sentimentOf a == "Positive").length ∧
      r.sentiment_distribution.negative =
        (arts.filter fun a => sentimentOf a == "Negative").length ∧
      r.sentiment_distribution.neutral =
        (arts.filter fun a =>
          !(sentimentOf a == "Positive") && !(sentimentOf a == "Negative")).length ∧
      r.sentiment_distribution.positive + r.sentiment_distribution.negative +
        r.sentiment_distribution.neutral = arts.length := by
  refine ⟨_, analyze_articles_ok arts h, ?_, ?_, ?_, ?_⟩
  · exact sentCounts_positive arts
  · exact sentCounts_negative arts
  · exact sentCounts_neutral arts
  · exact sentCounts_sum arts

/-- Witness for C2: one recognised and one unrecognised label. -/
theorem distribution_partitions_witness :
    ∃ r, analyze_articles sampleArticles = Except.ok r ∧
      r.sentiment_distribution.positive =
        (sampleArticles.filter fun a => sentimentOf a == "Positive").length ∧
      r.sentiment_distribution.negative =
        (sampleArticles.filter fun a => sentimentOf a == "Negative").length ∧
      r.sentiment_distribution.neutral =
        (sampleArticles.filter fun a =>
          !(sentimentOf a == "Positive") && !(sentimentOf a == "Negative")).length ∧
      r.sentiment_distribution.positive + r.sentiment_distribution.negative +
        r.sentiment_distribution.neutral = sampleArticles.length :=
  distribution_partitions sampleArticles (by simp [sampleArticles])

/-! ### Claim C8: structure of `coverage_differences` -/

theorem posTitlesOf_eq_filter (arts : List Article) :
    posTitlesOf arts =
      (arts.filter fun a => sentimentOf a == "Positive").map titleOf := by
  induction arts with
  | nil => rfl
  | cons a rest ih =>
      by_cases h1 : sentimentOf a = "Positive" <;>
        simp [posTitlesOf, h1, ih]

theorem negTitlesOf_eq_filter (arts : List Article) :
    negTitlesOf arts =
      (arts.filter fun a => sentimentOf a == "Negative").map titleOf := by
  induction arts with
  | nil => rfl
  | cons a rest ih =>
      by_cases h1 : sentimentOf a = "Negative" <;>
        simp [negTitlesOf, h1, ih]

theorem posTitlesOf_length (arts : List Article) :
    (posTitlesOf arts).length = (sentCounts arts).positive := by
  rw [posTitlesOf_eq_filter, sentCounts_positive, List.length_map]

theorem negTitlesOf_length (arts : List Article) :
    (negTitlesOf arts).length = (sentCounts arts).negative := by
  rw [negTitlesOf_eq_filter, sentCounts_negative, List.length_map]

/-- C8: `coverage_differences` always starts with the positive-count
sentence and the negative-count sentence, followed by a list of up to 2
positive titles exactly when a positive-sentiment article exists, and then
likewise for negative titles; the title lists are in first-seen order. -/
theorem coverage_differences_structure (arts : List Article) (h : arts ≠ []) :
    ∃ r, analyze_articles arts = Except.ok r ∧
      r.coverage_differences =
        [toString r.sentiment_distribution.positive ++
           " articles highlight positive developments",
         toString r.sentiment_distribution.negative ++
           " articles discuss challenges/risks"]
        ++ (if posTitlesOf arts = [] then []
            else ["Positive articles include: " ++
                    String.intercalate ", " ((posTitlesOf arts).take 2)])
        ++ (if negTitlesOf arts = [] then []
            else ["Negative articles include: " ++
                    String.intercalate ", " ((negTitlesOf arts).take 2)]) ∧
      posTitlesOf arts =
        (arts.filter fun a => sentimentOf a == "Positive").map titleOf ∧
      negTitlesOf arts =
        (arts.filter fun a => sentimentOf a == "Negative").map titleOf ∧
      ((posTitlesOf arts = []) ↔ r.sentiment_distribution.positive = 0) ∧
      ((negTitlesOf arts = []) ↔ r.sentiment_distribution.negative = 0) := by
  refine ⟨_, analyze_articles_ok arts h, ?_, posTitlesOf_eq_filter arts,
    negTitlesOf_eq_filter arts, ?_, ?_⟩
  · simp only [coverageOf, List.isEmpty_iff]
  · rw [← posTitlesOf_length arts, List.length_eq_zero]
  · rw [← negTitlesOf_length arts, List.length_eq_zero]

/-- Witness for C8 at the concrete sample list. -/
theorem coverage_differences_structure_witness :
    ∃ r, analyze_articles sampleArticles = Except.ok r ∧
      r.coverage_differences =
        [toString r.sentiment_distribution.positive ++
           " articles highlight positive developments",
         toString r.sentiment_distribution.negative ++
           " articles discuss challenges/risks"]
        ++ (if posTitlesOf sampleArticles = [] then []
            else ["Positive articles include: " ++
                    String.intercalate ", " ((posTitlesOf sampleArticles).take 2)])
        ++ (if negTitlesOf sampleArticles = [] then []
            else ["Negative articles include: " ++
                    String.intercalate ", " ((negTitlesOf sampleArticles).take 2)]) ∧
      posTitlesOf sampleArticles =
        (sampleArticles.filter fun a => sentimentOf a == "Positive").map titleOf ∧
      negTitlesOf sampleArticles =
        (sampleArticles.filter fun a => sentimentOf a == "Negative").map titleOf ∧
      ((posTitlesOf sampleArticles = []) ↔
        r.sentiment_distribution.positive = 0) ∧
      ((negTitlesOf sampleArticles = []) ↔
        r.sentiment_distribution.negative = 0) :=
  coverage_differences_structure sampleArticles (by simp [sampleArticles])

/-! ### Claim C3: lemmas about the stable descending sort -/

theorem mem_insertDesc {x z : String × Nat} {l : List (String × Nat)} :
    z ∈ insertDesc x l ↔ z = x ∨ z ∈ l := by
  induction l with
  | nil => simp [insertDesc]
  | cons y ys ih =>
      by_cases h : x.2 < y.2 <;> simp [insertDesc, h, ih] <;> tauto

theorem pairwise_insertDesc {x : String × Nat} {l : List (String × Nat)}
    (hl : l.Pairwise fun a b => b.2 ≤ a.2) :
    (insertDesc x l).Pairwise fun a b => b.2 ≤ a.2 := by
  induction l with
  | nil => simp [insertDesc]
  | cons y ys ih =>
      rcases List.pairwise_cons.mp hl with ⟨hy, hys⟩
      by_cases h : x.2 < y.2
      · simp only [insertDesc, if_pos h]
        refine List.pairwise_cons.mpr ⟨?_, ih hys⟩
        intro z hz
        rcases mem_insertDesc.mp hz with rfl | hz'
        · omega
        · exact hy z hz'
      · simp only [insertDesc, if_neg h]
        refine List.pairwise_cons.mpr ⟨?_, hl⟩
        intro z hz
        rcases List.mem_cons.mp hz with rfl | hz'
        · omega
        · exact le_trans (hy z hz') (by omega)

theorem filter_insertDesc (x : String × Nat) (l : List (String × Nat)) (c : Nat) :
    (insertDesc x l).filter (fun p => p.2 == c) =
      (x :: l).filter (fun p => p.2 == c) := by
  induction l with
  | nil => simp [insertDesc]
  | cons y ys ih =>
      by_cases h : x.2 < y.2
      · simp only [insertDesc, if_pos h]
        by_cases hyc : y.2 = c
        · have hxc : ¬ x.2 = c := by omega
          simp [List.filter_cons, hyc, hxc, ih]
        · by_cases hxc : x.2 = c <;> simp [List.filter_cons, hyc, hxc, ih]
      · simp [insertDesc, if_neg h]

theorem mem_sortDesc {z : String × Nat} {l : List (String × Nat)} :
    z ∈ sortDesc l ↔ z ∈ l := by
  induction l with
  | nil => simp [sortDesc]
  | cons x xs ih =>
      show z ∈ insertDesc x (sortDesc xs) ↔ _
      rw [mem_insertDesc, ih]
      simp

theorem sortDesc_pairwise (l : List (String × Nat)) :
    (sortDesc l).Pairwise fun a b => b.2 ≤ a.2 := by
  induction l with
  | nil => simp [sortDesc]
  | cons x xs ih => exact pairwise_insertDesc ih

theorem sortDesc_filter (l : List (String × Nat)) (c : Nat) :
    (sortDesc l).filter (fun p => p.2 == c) = l.filter (fun p => p.2 == c) := by
  induction l with
  | nil => rfl
  | cons x xs ih =>
      have h1 : (sortDesc (x :: xs)).filter (fun p => p.2 == c) =
          ((x :: sortDesc xs).filter fun p => p.2 == c) :=
        filter_insertDesc x (sortDesc xs) c
      rw [h1]
      by_cases hx : x.2 = c <;> simp [List.filter_cons, hx, ih]

/-! ### Claim C3: the counter's keys are in first-seen order -/

theorem keys_incKey (acc : List (String × Nat)) (t : String) :
    (incKey acc t).map Prod.fst =
      if t ∈ acc.map Prod.fst then acc.map Prod.fst
      else acc.map Prod.fst ++ [t] := by
  induction acc with
  | nil => simp [incKey]
  | cons p rest ih =>
      obtain ⟨k, n⟩ := p
      by_cases h : k = t
      · simp [incKey, h]
      · have h' : ¬ t = k := fun hh => h hh.symm
        by_cases h2 : t ∈ rest.map Prod.fst <;> simp [incKey, h, h', h2, ih]

theorem firstOccsAux_congr {s1 s2 : List String}
    (hs : ∀ x, x ∈ s1 ↔ x ∈ s2) (l : List String) :
    firstOccsAux s1 l = firstOccsAux s2 l := by
  induction l generalizing s1 s2 with
  | nil => rfl
  | cons t ts ih =>
      by_cases h : t ∈ s1
      · have h2 : t ∈ s2 := (hs t).mp h
        simp only [firstOccsAux, if_pos h, if_pos h2]
        exact ih hs
      · have h2 : t ∉ s2 := fun hh => h ((hs t).mpr hh)
        simp only [firstOccsAux, if_neg h, if_neg h2]
        exact congrArg (t :: ·) (ih (fun x => by simp [hs x]))

theorem keys_foldl_incKey (l : List String) (acc : List (String × Nat)) :
    (l.foldl incKey acc).map Prod.fst =
      acc.map Prod.fst ++ firstOccsAux (acc.map Prod.fst) l := by
  induction l generalizing acc with
  | nil => simp [firstOccsAux]
  | cons t ts ih =>
      rw [List.foldl_cons, ih, keys_incKey]
      by_cases h : t ∈ acc.map Prod.fst
      · simp [h, firstOccsAux]
      · rw [if_neg h]
        have hcongr :
            firstOccsAux (acc.map Prod.fst ++ [t]) ts =
              firstOccsAux (t :: acc.map Prod.fst) ts :=
          firstOccsAux_congr (fun x => by simp [or_comm]) ts
        simp [firstOccsAux, h, hcongr]

theorem countList_keys (l : List String) :
    (countList l).map Prod.fst = firstOccsAux [] l := by
  simpa using keys_foldl_incKey l []

/-! ### Claim C3: the counter's values are the frequencies -/

theorem getCount_incKey (acc : List (String × Nat)) (u t : String) :
    getCount (incKey acc u) t =
      if u = t then getCount acc t + 1 else getCount acc t := by
  induction acc with
  | nil => by_cases h : u = t <;> simp [incKey, getCount, h]
  | cons p rest ih =>
      obtain ⟨k, n⟩ := p
      by_cases hk : k = u
      · subst hk
        by_cases ht : k = t <;> simp [incKey, getCount, ht]
      · by_cases ht : k = t
        · subst ht
          have hut : ¬ u = k := fun hh => hk hh.symm
          simp [incKey, getCount, hk, hut]
        · simp [incKey, getCount, hk, ht, ih]

theorem getCount_foldl (l : List String) (acc : List (String × Nat)) (t : String) :
    getCount (l.foldl incKey acc) t = getCount acc t + l.count t := by
  induction l generalizing acc with
  | nil => simp
  | cons u us ih =>
      rw [List.foldl_cons, ih, getCount_incKey]
      by_cases h : u = t <;> simp [h, List.count_cons] <;> omega

theorem countList_getCount (l : List String) (t : String) :
    getCount (countList l) t = l.count t := by
  simpa [getCount] using getCount_foldl l [] t

theorem firstOccsAux_not_mem_seen (l : List String) (seen : List String) :
    ∀ x ∈ firstOccsAux seen l, x ∉ seen := by
  induction l generalizing seen with
  | nil => simp [firstOccsAux]
  | cons t ts ih =>
      intro x hx
      by_cases h : t ∈ seen
      · simp only [firstOccsAux, if_pos h] at hx
        exact ih seen x hx
      · simp only [firstOccsAux, if_neg h] at hx
        rcases List.mem_cons.mp hx with rfl | hx'
        · exact h
        · intro hxs
          exact ih (t :: seen) x hx' (List.mem_cons_of_mem t hxs)

theorem firstOccsAux_nodup (l : List String) (seen : List String) :
    (firstOccsAux seen l).Nodup := by
  induction l generalizing seen with
  | nil => simp [firstOccsAux]
  | cons t ts ih =>
      by_cases h : t ∈ seen
      · simpa [firstOccsAux, h] using ih seen
      · simp only [firstOccsAux, if_neg h]
        refine List.nodup_cons.mpr ⟨?_, ih (t :: seen)⟩
        intro hmem
        exact firstOccsAux_not_mem_seen ts (t :: seen) t hmem (List.mem_cons_self t _)

theorem getCount_of_mem {al : List (String × Nat)}
    (hnd : (al.map Prod.fst).Nodup) {k : String} {n : Nat}
    (hm : (k, n) ∈ al) : getCount al k = n := by
  induction al with
  | nil => cases hm
  | cons p rest ih =>
      obtain ⟨k', n'⟩ := p
      have hnd' : k' ∉ rest.map Prod.fst ∧ (rest.map Prod.fst).Nodup := by
        rw [List.map_cons, List.nodup_cons] at hnd
        exact hnd
      obtain ⟨h1, h2⟩ := hnd'
      rcases List.mem_cons.mp hm with h | h
      · rw [Prod.mk.injEq] at h
        obtain ⟨h3, h4⟩ := h
        subst h3
        subst h4
        simp [getCount]
      · have hk : ¬ k' = k := by
          intro he
          subst he
          exact h1 (List.mem_map.mpr ⟨(k', n), h, rfl⟩)
        simp [getCount, hk, ih h2 h]

theorem countList_counts (l : List String) :
    ∀ p ∈ countList l, p.2 = l.count p.1 := by
  intro p hp
  obtain ⟨k, n⟩ := p
  have hnd : ((countList l).map Prod.fst).Nodup := by
    rw [countList_keys]
    exact firstOccsAux_nodup l []
  have h1 := getCount_of_mem hnd hp
  have h2 := countList_getCount l k
  simp only []
  omega

/-! ### Claim C3: tokens produced by `pySplit` need no stripping -/

theorem dropWhile_eq_self_of {p : Char → Bool} {l : List Char}
    (h : ∀ c ∈ l, p c = false) : l.dropWhile p = l := by
  cases l with
  | nil => rfl
  | cons c cs => simp [List.dropWhile_cons, h c (List.mem_cons_self c cs)]

theorem stripChars_eq_self {l : List Char}
    (h : ∀ c ∈ l, c.isWhitespace = false) : stripChars l = l := by
  unfold stripChars
  rw [dropWhile_eq_self_of h,
      dropWhile_eq_self_of (fun c hc => h c (List.mem_reverse.mp hc)),
      List.reverse_reverse]

theorem splitWAux_words (l : List Char) :
    ∀ acc : List Char, (∀ c ∈ acc, c.isWhitespace = false) →
      ∀ w ∈ splitWAux l acc, w ≠ [] ∧ ∀ c ∈ w, c.isWhitespace = false := by
  induction l with
  | nil =>
      intro acc hacc w hw
      by_cases h : acc.isEmpty
      · simp [splitWAux, h] at hw
      · simp only [splitWAux, if_neg h, List.mem_singleton] at hw
        subst hw
        refine ⟨?_, fun c hc => hacc c (List.mem_reverse.mp hc)⟩
        simpa [List.isEmpty_iff] using h
  | cons c cs ih =>
      intro acc hacc w hw
      by_cases hws : c.isWhitespace
      · by_cases h : acc.isEmpty
        · simp only [splitWAux, if_pos hws, if_pos h] at hw
          exact ih [] (by simp) w hw
        · simp only [splitWAux, if_pos hws, if_neg h, List.mem_cons] at hw
          rcases hw with rfl | hw
          · refine ⟨?_, fun d hd => hacc d (List.mem_reverse.mp hd)⟩
            simpa [List.isEmpty_iff] using h
          · exact ih [] (by simp) w hw
      · simp only [splitWAux, if_neg hws] at hw
        refine ih (c :: acc) ?_ w hw
        intro d hd
        rcases List.mem_cons.mp hd with rfl | hd
        · simpa using hws
        · exact hacc d hd

theorem pySplit_words (s : String) :
    ∀ w ∈ pySplit s, w ≠ "" ∧ pyStrip w = w := by
  intro w hw
  simp only [pySplit, List.mem_map] at hw
  obtain ⟨l, hl, rfl⟩ := hw
  obtain ⟨hne, hnw⟩ := splitWAux_words s.data [] (by simp) l hl
  refine ⟨?_, ?_⟩
  · intro hcon
    exact hne (congrArg String.data hcon)
  · show String.mk (stripChars l) = String.mk l
    rw [stripChars_eq_self hnw]

theorem filterMap_strip_eq_map {L : List String}
    (h : ∀ w ∈ L, w ≠ "" ∧ pyStrip w = w) :
    (L.filterMap fun w =>
      if pyStrip w = "" then none else some (pyLower (pyStrip w))) =
      L.map pyLower := by
  induction L with
  | nil => rfl
  | cons w ws ih =>
      obtain ⟨h2, h1⟩ := h w (List.mem_cons_self w ws)
      have hrest := ih (fun v hv => h v (List.mem_cons_of_mem w hv))
      simp only [List.filterMap_cons, List.map_cons, h1, if_neg h2]
      rw [hrest]

theorem topicsOfTitle_eq_tokens (t : String) :
    topicsOfTitle t = ((pySplit t).take 3).map pyLower := by
  unfold topicsOfTitle
  refine filterMap_strip_eq_map ?_
  intro w hw
  exact pySplit_words t w (List.mem_of_mem_take hw)

/-! ### Claim C3: ordering and content of `common_topics` -/

/-- C3: `common_topics` is the title-cased image of the first 3 entries of
the stable descending sort of the topic counter; its length is at most 3;
the sorted list is in (weakly) descending count order, so a strictly more
frequent topic always precedes a strictly less frequent one; restricted to
any fixed count the sort preserves the counter's order, whose keys are the
topics in first-seen order; each counter entry's value is its topic's
frequency; and each title contributes its first 3 whitespace tokens,
lower-cased. -/
theorem common_topics_ordered (arts : List Article) (h : arts ≠ []) :
    ∃ r, analyze_articles arts = Except.ok r ∧
      (∀ t, topicsOfTitle t = ((pySplit t).take 3).map pyLower) ∧
      r.common_topics =
        ((sortDesc (countList (allTopics arts))).take 3).map
          (fun p => pyTitle p.1) ∧
      r.common_topics.length ≤ 3 ∧
      ((sortDesc (countList (allTopics arts))).take 3).Pairwise
        (fun x y => y.2 ≤ x.2) ∧
      (∀ c, (sortDesc (countList (allTopics arts))).filter
          (fun p => p.2 == c) =
        (countList (allTopics arts)).filter fun p => p.2 == c) ∧
      (countList (allTopics arts)).map Prod.fst =
        firstOccsAux [] (allTopics arts) ∧
      (∀ p ∈ sortDesc (countList (allTopics arts)),
        p.2 = (allTopics arts).count p.1) := by
  refine ⟨_, analyze_articles_ok arts h, topicsOfTitle_eq_tokens, rfl, ?_, ?_,
    ?_, countList_keys _, ?_⟩
  · simp only [commonTopicsOf, List.length_map, List.length_take]
    omega
  · exact List.Pairwise.sublist (List.take_sublist _ _) (sortDesc_pairwise _)
  · intro c
    exact sortDesc_filter _ c
  · intro p hp
    exact countList_counts _ p (mem_sortDesc.mp hp)

/-- Witness for C3 at the concrete sample list. -/
theorem common_topics_ordered_witness :
    ∃ r, analyze_articles sampleArticles = Except.ok r ∧
      (∀ t, topicsOfTitle t = ((pySplit t).take 3).map pyLower) ∧
      r.common_topics =
        ((sortDesc (countList (allTopics sampleArticles))).take 3).map
          (fun p => pyTitle p.1) ∧
      r.common_topics.length ≤ 3 ∧
      ((sortDesc (countList (allTopics sampleArticles))).take 3).Pairwise
        (fun x y => y.2 ≤ x.2) ∧
      (∀ c, (sortDesc (countList (allTopics sampleArticles))).filter
          (fun p => p.2 == c) =
        (countList (allTopics sampleArticles)).filter fun p => p.2 == c) ∧
      (countList (allTopics sampleArticles)).map Prod.fst =
        firstOccsAux [] (allTopics sampleArticles) ∧
      (∀ p ∈ sortDesc (countList (allTopics sampleArticles)),
        p.2 = (allTopics sampleArticles).count p.1) :=
  common_topics_ordered sampleArticles (by simp [sampleArticles])

/-! ### Claim C5: behaviour of `summarize` -/

/-- C5: text with fewer than 30 words is returned unchanged; with at least
30 words the capability is invoked with `max_length = min(150, wc - 10)`
and `min_length = max(30, wc // 4)` and its summary returned; on
capability failure the first 150 characters of the original text plus an
ellipsis marker are returned. -/
theorem summarize_spec (cap : String → Nat → Nat → Option String)
    (text : String) :
    ((pySplit text).length < 30 → summarize cap text = text) ∧
    (30 ≤ (pySplit text).length →
      summarize cap text =
        applySummarizer cap text (min 150 ((pySplit text).length - 10))
          (max 30 ((pySplit text).length / 4))) ∧
    (∀ maxLen minLen, cap text maxLen minLen = none →
      applySummarizer cap text maxLen minLen = text.take 150 ++ "...") ∧
    (∀ maxLen minLen s, cap text maxLen minLen = some s →
      applySummarizer cap text maxLen minLen = s) := by
  refine ⟨?_, ?_, ?_, ?_⟩
  · intro h
    simp [summarize, h]
  · intro h
    have h' : ¬ (pySplit text).length < 30 := by omega
    simp [summarize, h']
  · intro maxLen minLen hc
    simp [applySummarizer, hc]
  · intro maxLen minLen s hc
    simp [applySummarizer, hc]

/-- Witness for C5: a short text passes through unchanged even when the
capability would fail. -/
theorem summarize_spec_witness :
    (pySplit "too short").length < 30 ∧
      summarize (fun _ _ _ => none) "too short" = "too short" :=
  ⟨by decide, (summarize_spec (fun _ _ _ => none) "too short").1 (by decide)⟩

/-! ### Claim C10: contradictory bounds for word counts 30–39 -/

/-- C10: for 30 ≤ wc ≤ 39 the capability is invoked with
`max_length = wc - 10` (since `min(150, wc - 10) = wc - 10`) and
`min_length = 30` (since `max(30, wc // 4) = 30`), and these bounds are
contradictory: `wc - 10 < 30`. -/
theorem summarize_contradictory_bounds
    (cap : String → Nat → Nat → Option String) (text : String)
    (h1 : 30 ≤ (pySplit text).length) (h2 : (pySplit text).length ≤ 39) :
    summarize cap text =
      applySummarizer cap text ((pySplit text).length - 10) 30 ∧
    (pySplit text).length - 10 < 30 := by
  have hmin : min 150 ((pySplit text).length - 10) =
      (pySplit text).length - 10 := by omega
  have hmax : max 30 ((pySplit text).length / 4) = 30 := by omega
  have h' : ¬ (pySplit text).length < 30 := by omega
  exact ⟨by simp [summarize, h', hmin, hmax], by omega⟩

/-- Witness for C10 at a concrete 30-word text. -/
theorem summarize_contradictory_bounds_witness :
    summarize (fun _ _ _ => some "S") thirtyWordText =
      applySummarizer (fun _ _ _ => some "S") thirtyWordText
        ((pySplit thirtyWordText).length - 10) 30 ∧
    (pySplit thirtyWordText).length - 10 < 30 :=
  summarize_contradictory_bounds (fun _ _ _ => some "S") thirtyWordText
    (by decide) (by decide)

/-! ### Claim C6: deterministic structure of the narrative script -/

theorem numberFrom_eq_range (k : Nat) (l : List String) :
    numberFrom k l =
      (List.range l.length).map
        (fun j => toString (k + j) ++ ". " ++ l.getD j "") := by
  induction l generalizing k with
  | nil => rfl
  | cons x xs ih =>
      have htail :
          (List.range xs.length).map
              ((fun j => toString (k + j) ++ ". " ++ (x :: xs).getD j "") ∘
                Nat.succ) =
            (List.range xs.length).map
              (fun j => toString (k + 1 + j) ++ ". " ++ xs.getD j "") := by
        refine List.map_congr_left ?_
        intro j hj
        have harith : k + (j + 1) = k + 1 + j := by omega
        simp [Function.comp, List.getD, harith]
      rw [numberFrom, List.length_cons, List.range_succ_eq_map, List.map_cons,
        List.map_map, htail, ← ih (k + 1)]
      simp [List.getD]

/-- C6: the script is exactly the company/overall-sentiment line, then the
counts line with the three distribution values (0 when a key is missing,
and a fixed placeholder for a missing overall sentiment), then the topics
line exactly when `common_topics` is non-empty, then — exactly when
`coverage_differences` is non-empty — the numbered insight list, numbered
from 1 in input order with no reordering or filtering. -/
theorem script_structure (company : String) (d : AnalysisData) :
    buildSummaryText company d =
      "Company: " ++ company ++ ". Overall Sentiment: " ++
        d.final_sentiment_analysis.getD "No sentiment analysis available" ++
        ". Positive articles: " ++
        toString
          ((d.sentiment_distribution.getD ⟨none, none, none⟩).positive.getD 0) ++
        ", Negative articles: " ++
        toString
          ((d.sentiment_distribution.getD ⟨none, none, none⟩).negative.getD 0) ++
        ", Neutral articles: " ++
        toString
          ((d.sentiment_distribution.getD ⟨none, none, none⟩).neutral.getD 0) ++
        ". " ++
      (if d.common_topics.getD [] = [] then ""
       else "Common topics include " ++
         String.intercalate ", " (d.common_topics.getD []) ++ ". ") ++
      (if d.coverage_differences.getD [] = [] then ""
       else "Key insights are: " ++
         String.intercalate " "
           ((List.range (d.coverage_differences.getD []).length).map
             (fun j => toString (j + 1) ++ ". " ++
               (d.coverage_differences.getD []).getD j "")) ++ ". ") := by
  have hnum :
      numberFrom 1 (d.coverage_differences.getD []) =
        (List.range (d.coverage_differences.getD []).length).map
          (fun j => toString (j + 1) ++ ". " ++
            (d.coverage_differences.getD []).getD j "") := by
    rw [numberFrom_eq_range]
    refine List.map_congr_left ?_
    intro j hj
    have harith : 1 + j = j + 1 := by omega
    rw [harith]
  by_cases ht : d.common_topics.getD [] = [] <;>
    by_cases hc : d.coverage_differences.getD [] = [] <;>
      · apply String.ext
        simp [buildSummaryText, ht, hc, List.isEmpty_iff, hnum,
          String.data_append]

/-! ### Claim C7: invalid analysis payloads are rejected -/

/-- C7: a payload that is `None`, a non-dict value, or an empty dict makes
`generate_tts` fail validation: it returns `none` and produces no script
or filename. -/
theorem generate_tts_rejects_invalid (pyHash : String → Int)
    (translate : String → Option String) (synthesize : String → Bool)
    (company : String) (p : Payload)
    (h : p = Payload.null ∨ p = Payload.truthyNonDict ∨
      p = Payload.falsyNonDict ∨
      ∃ d, p = Payload.dict d ∧ truthyDict d = false) :
    generate_tts pyHash translate synthesize company p = none := by
  rcases h with rfl | rfl | rfl | ⟨d, rfl, hd⟩ <;>
    simp [generate_tts, invalidPayload, *]

/-- Witness for C7 at the empty-dict payload. -/
theorem generate_tts_rejects_invalid_witness :
    generate_tts (fun _ => 0) (fun s => some s) (fun _ => true) "Acme"
      (Payload.dict ⟨none, none, none, none, 0⟩) = none :=
  generate_tts_rejects_invalid _ _ _ _ _
    (Or.inr (Or.inr (Or.inr ⟨⟨none, none, none, none, 0⟩, rfl, by decide⟩)))

/-! ### Claim C4: the filename digest is not stable across processes -/

/-- C4 is refuted by the code: the digest embedded in the filename is
Python's built-in `hash(summary_text)`, which is salted per process run.
Two runs on the same company and the same analysis data, whose process
hash functions differ on the (identical) script, return different
filenames. -/
theorem generate_tts_filename_unstable :
    generate_tts (fun _ => 1) (fun s => some s) (fun _ => true) "Acme"
        (Payload.dict ⟨some "x", none, none, none, 0⟩) ≠
      generate_tts (fun _ => 2) (fun s => some s) (fun _ => true) "Acme"
        (Payload.dict ⟨some "x", none, none, none, 0⟩) := by
  decide

/-! ### Claim C9: the orchestrator preserves input order -/

theorem foldl_set_length {β : Type} (order : List Nat) (g : Nat → Option β)
    (st : List (Option β)) :
    (order.foldl (fun s i => s.set i (g i)) st).length = st.length := by
  induction order generalizing st with
  | nil => rfl
  | cons i rest ih => rw [List.foldl_cons, ih, List.length_set]

theorem foldl_set_getElem {β : Type} (order : List Nat) (g : Nat → Option β)
    (st : List (Option β)) (j : Nat) (hj : j < st.length) :
    (order.foldl (fun s i => s.set i (g i)) st)[j]? =
      if j ∈ order then some (g j) else st[j]? := by
  induction order generalizing st with
  | nil => simp
  | cons i rest ih =>
      rw [List.foldl_cons,
        ih (st.set i (g i)) (by rw [List.length_set]; exact hj)]
      by_cases hm : j ∈ rest
      · simp [hm]
      · by_cases hij : i = j
        · subst hij
          simp [hm, List.getElem?_set_self hj]
        · have hji : ¬ j = i := fun h => hij h.symm
          simp [hm, hji, List.getElem?_set_ne hij]

theorem completeStore_eq {α β : Type} (f : α → β) (xs : List α)
    (order : List Nat) (hc : ∀ i < xs.length, i ∈ order) :
    completeStore f xs order = xs.map fun a => some (f a) := by
  apply List.ext_getElem?
  intro j
  by_cases hj : j < xs.length
  · rw [completeStore, foldl_set_getElem order _ _ j
      (by rw [List.length_replicate]; exact hj), if_pos (hc j hj)]
    simp [List.getElem?_eq_getElem, hj]
  · have h1 : (completeStore f xs order)[j]? = none := by
      rw [List.getElem?_eq_none]
      rw [completeStore, foldl_set_length, List.length_replicate]
      omega
    have h2 : (xs.map fun a => some (f a))[j]? = none := by
      rw [List.getElem?_eq_none]
      rw [List.length_map]
      omega
    rw [h1, h2]

theorem gather_map_some {β : Type} (l : List β) :
    gather (l.map fun b => some b) = some l := by
  induction l with
  | nil => rfl
  | cons b rest ih => simp [gather, ih]

/-- C9: whatever the completion order of the parallel enrichment tasks, as
long as every task completes, the orchestrator returns the enriched
articles in input order — the order cannot depend on timing. -/
theorem poolMap_preserves_order (sentCap : String → Option String)
    (summCap : String → Nat → Nat → Option String)
    (xs : List RawArticle) (order : List Nat)
    (hc : ∀ i < xs.length, i ∈ order) :
    poolMap (process_article sentCap summCap) xs order =
      some (xs.map (process_article sentCap summCap)) := by
  rw [poolMap, completeStore_eq _ _ _ hc]
  have hmm : (xs.map fun a => some (process_article sentCap summCap a)) =
      ((xs.map (process_article sentCap summCap)).map fun b => some b) := by
    rw [List.map_map]
    rfl
  rw [hmm]
  exact gather_map_some _

/-- Witness for C9: reverse-order completion still yields input order. -/
theorem poolMap_preserves_order_witness :
    poolMap (process_article (fun _ => some "POSITIVE") (fun _ _ _ => some "S"))
        sampleRaw [1, 0] =
      some (sampleRaw.map
        (process_article (fun _ => some "POSITIVE") (fun _ _ _ => some "S"))) :=
  poolMap_preserves_order (fun _ => some "POSITIVE") (fun _ _ _ => some "S")
    sampleRaw [1, 0] (by decide)

end NewsSentiment
